import Mathlib

/-!
Verification of the `snapfile` crate (`src/snapfile/src/lib.rs`): a file
format storing a snapshot of fixed-size 8192-byte pages inside a chaptered
container file, together with the metadata identifying the snapshot
(timeline, LSN, optional predecessor).

The embedding below translates the crate's code into Lean:
* the chaptered container (`bookfile::Book`) and the CBOR codec
  (`aversion`) are external collaborators; the container is modelled as a
  `DiskFile` record of optional chapters, and encoding is modelled as the
  identity with an explicit `malformed` alternative for undecodable bytes;
* `u64` values (page numbers, LSNs, ordinals) are modelled as `Nat` —
  every quantity produced by the code is bounded by the number of
  `write_page` calls or the file length, so no wraparound is reachable;
* the `BTreeMap<u64, PageLocation>` inside `PageIndex` is modelled as an
  association list kept sorted by strictly increasing key, with `BTreeMap`
  semantics for `get` / `insert` (insert returns the previous value) and
  in-order iteration;
* `panic!` in `SnapWriter::write_page` is modelled as a dedicated
  `WriteOutcome.panicked` constructor recording the writer state at the
  moment of the panic (the `&mut self` mutations already performed);
  chapter appends by the external container are modelled as succeeding,
  so the `err` constructor (the `Err` of the Rust `Result`) is reserved
  for I/O failures of the collaborators and is never produced here.
-/

/-- A 16-byte timeline identifier, `[u8; 16]` in the source
(`SnapFileMeta.timeline`, declared in the `versioned` module). -/
abbrev Timeline := { l : List Nat // l.length = 16 ∧ ∀ b ∈ l, b < 256 }

/-- One page: exactly 8192 opaque bytes (`page::Page` wraps `[u8; 8192]`;
the byte values themselves are never inspected by this crate). -/
abbrev Page := { l : List Nat // l.length = 8192 }

/-- `Predecessor { timeline, lsn }` from the `versioned` module: the
identity of the snapshot this one incrementally extends. -/
structure Predecessor where
  timeline : Timeline
  lsn : Nat
deriving DecidableEq

/-- `SnapFileMeta { timeline, predecessor, lsn }` from the `versioned`
module: the snapshot's identity, persisted in the meta chapter. -/
structure SnapFileMeta where
  timeline : Timeline
  predecessor : Option Predecessor
  lsn : Nat
deriving DecidableEq

/-- `PageLocation(u64)`: the ordinal position of a page within the pages
chapter, assigned in write order. -/
structure PageLocation where
  val : Nat
deriving DecidableEq

/-- `PageLocation::to_offset`: byte offset of the page, `self.0 * 8192`. -/
def PageLocation.to_offset (l : PageLocation) : Nat :=
  l.val * 8192

/-- `BTreeMap::get(&page_num).copied()` on the sorted association list. -/
def mapGet : List (Nat × PageLocation) → Nat → Option PageLocation
  | [], _ => none
  | (k, v) :: rest, key => if key = k then some v else mapGet rest key

/-- `BTreeMap::insert(page_num, v)`: returns the updated map together with
the value previously stored under the key, if any. -/
def mapInsert : List (Nat × PageLocation) → Nat → PageLocation →
    List (Nat × PageLocation) × Option PageLocation
  | [], key, v => ([(key, v)], none)
  | (k, w) :: rest, key, v =>
    if key < k then ((key, v) :: (k, w) :: rest, none)
    else if key = k then ((key, v) :: rest, some w)
    else
      let r := mapInsert rest key v
      ((k, w) :: r.1, r.2)

/-- `PageIndex { map: BTreeMap<u64, PageLocation> }` from the `versioned`
module, as a key-sorted association list. -/
structure PageIndex where
  map : List (Nat × PageLocation)
deriving DecidableEq

/-- `PageIndex::get_page_location`. -/
def PageIndex.get_page_location (idx : PageIndex) (page_num : Nat) :
    Option PageLocation :=
  mapGet idx.map page_num

/-- `PageIndex::page_count`: `self.map.len()`. -/
def PageIndex.page_count (idx : PageIndex) : Nat :=
  idx.map.length

/-- A chapter payload as seen through the codec: either a decodable value
or malformed bytes (`expect_message` would fail). -/
inductive Decoded (α : Type) where
  | good (a : α)
  | malformed
deriving DecidableEq

/-- `SNAPFILE_MAGIC` from the `versioned` module. Modelled from the spec:
a whole-file magic tag identifying this snapshot format; the concrete
value is private to the crate and immaterial, only (in)equality with
itself is ever tested, so a small representative value is used here. -/
def SNAPFILE_MAGIC : Nat := 0x7a

/-- The on-disk container after `SnapWriter::finish` closed it: the magic
tag and the three named chapters (`snap_meta`, `pages`, `page_index`),
each possibly absent or undecodable. The pages chapter is a raw byte
sequence: the concatenation of the 8192-byte pages in write order. -/
structure DiskFile where
  magic : Nat
  metaChapter : Option (Decoded SnapFileMeta)
  pagesChapter : Option (List Nat)
  indexChapter : Option (Decoded PageIndex)

/-- The failure cases surfaced by the crate (`anyhow` errors in the
source, distinguished here by their `bail!`/`context` messages). -/
inductive SnapError where
  | badMagic
  | missingIndexChapter
  | malformedIndex
  | missingMetaChapter
  | malformedMeta
  | missingPagesChapter
  | truncatedPage
deriving DecidableEq

/-- `SnapFile`: a read-only snapshot file with its page index loaded. -/
structure SnapFile where
  book : DiskFile
  page_index : PageIndex

/-- `SnapFile::new`: verify the magic tag, then eagerly load and decode
the page index chapter. -/
def SnapFile.new (d : DiskFile) : Except SnapError SnapFile :=
  if d.magic ≠ SNAPFILE_MAGIC then Except.error SnapError.badMagic
  else
    match d.indexChapter with
    | none => Except.error SnapError.missingIndexChapter
    | some Decoded.malformed => Except.error SnapError.malformedIndex
    | some (Decoded.good page_index) => Except.ok { book := d, page_index }

/-- `SnapFile::read_meta`: decode the snapshot metadata chapter on
demand. -/
def SnapFile.read_meta (f : SnapFile) : Except SnapError SnapFileMeta :=
  match f.book.metaChapter with
  | none => Except.error SnapError.missingMetaChapter
  | some Decoded.malformed => Except.error SnapError.malformedMeta
  | some (Decoded.good meta) => Except.ok meta

/-- `SnapFile::page_count`. -/
def SnapFile.page_count (f : SnapFile) : Nat :=
  f.page_index.page_count

/-- `SnapFile::has_page`. -/
def SnapFile.has_page (f : SnapFile) (page_num : Nat) : Bool :=
  (f.page_index.get_page_location page_num).isSome

/-- `SnapFile::_read_page`: random-access read of 8192 bytes from the
pages chapter at the location's byte offset; `read_at` returns the bytes
available there, and fewer than 8192 of them is the "read truncated page"
corruption error. -/
def SnapFile._read_page (f : SnapFile) (page_location : PageLocation) :
    Except SnapError Page :=
  match f.book.pagesChapter with
  | none => Except.error SnapError.missingPagesChapter
  | some data =>
    let chunk := (data.drop page_location.to_offset).take 8192
    if h : chunk.length = 8192 then Except.ok ⟨chunk, h⟩
    else Except.error SnapError.truncatedPage

/-- `SnapFile::read_page`: `Ok(None)` when the page is not in the index,
otherwise the 8192 bytes at the indexed location. -/
def SnapFile.read_page (f : SnapFile) (page_num : Nat) :
    Except SnapError (Option Page) :=
  match f.page_index.get_page_location page_num with
  | none => Except.ok none
  | some page_offset => (f._read_page page_offset).map some

/-- `SnapFile::all_pages` / `PageIter::next`: one item per index entry,
in the index's (ascending key) order, each item re-running the
`_read_page` logic. -/
def SnapFile.all_pages (f : SnapFile) : List (Except SnapError (Nat × Page)) :=
  f.page_index.map.map fun e =>
    (f._read_page e.2).map fun page_data => (e.1, page_data)

/-- `SnapWriter`: accumulates the pages chapter bytes, the in-memory
index, the metadata supplied at creation, and the next ordinal. -/
structure SnapWriter where
  pagesBytes : List Nat
  page_index : PageIndex
  meta : SnapFileMeta
  current_offset : PageLocation

/-- Outcome of one `write_page` call. `ok`/`err` are the Rust
`Ok`/`Err`; `panicked` records the writer state already mutated at the
moment `panic!` fires. `err` would only arise from an I/O failure of the
external container, which this embedding models as succeeding. -/
inductive WriteOutcome where
  | ok (w : SnapWriter)
  | err (e : SnapError) (w : SnapWriter)
  | panicked (msg : String) (w : SnapWriter)

/-- `SnapWriter::new`: fresh writer for the given metadata (the file
creation and the immediate meta-chapter write happen in the external
container; the meta is carried in the writer and lands in the
`DiskFile` at `finish`). -/
def SnapWriter.new (meta : SnapFileMeta) : SnapWriter :=
  { pagesBytes := []
    page_index := ⟨[]⟩
    meta
    current_offset := ⟨0⟩ }

/-- `SnapWriter::write_page`: append the 8192 bytes to the pages chapter,
insert `(page_num, current_offset)` into the index, panic if the key was
already present, otherwise advance the ordinal. -/
def SnapWriter.write_page (w : SnapWriter) (page_num : Nat) (page_data : Page) :
    WriteOutcome :=
  let pagesBytes := w.pagesBytes ++ page_data.val
  let r := mapInsert w.page_index.map page_num w.current_offset
  let w1 : SnapWriter :=
    { w with pagesBytes, page_index := ⟨r.1⟩ }
  match r.2 with
  | some _ =>
    WriteOutcome.panicked ("duplicate index for page " ++ Nat.repr page_num) w1
  | none =>
    WriteOutcome.ok { w1 with current_offset := ⟨w.current_offset.val + 1⟩ }

/-- `SnapWriter::finish`: close the pages chapter, serialize the index
into its chapter, close the book, and hand the metadata back. The result
pairs the returned `SnapFileMeta` with the finalized on-disk file. -/
def SnapWriter.finish (w : SnapWriter) : SnapFileMeta × DiskFile :=
  (w.meta,
   { magic := SNAPFILE_MAGIC
     metaChapter := some (Decoded.good w.meta)
     pagesChapter := some w.pagesBytes
     indexChapter := some (Decoded.good w.page_index) })

/-- `SnapFileMeta::new`: capture the previous snapshot's `(timeline, lsn)`
as the predecessor, if a previous snapshot is given. -/
def SnapFileMeta.new (previous : Option SnapFileMeta) (timeline : Timeline)
    (lsn : Nat) : SnapFileMeta :=
  let predecessor := previous.map fun prev =>
    Predecessor.mk prev.timeline prev.lsn
  { timeline, predecessor, lsn }

/-- Lowercase hex digit for a value below 16, as produced both by
`hex::encode` and by the `{:x}` format. -/
def hexDigit (n : Nat) : Char :=
  if n < 10 then Char.ofNat (48 + n) else Char.ofNat (87 + n)

/-- `hex::encode` of one byte: high nibble then low nibble. -/
def byteHex (b : Nat) : List Char :=
  [hexDigit (b / 16), hexDigit (b % 16)]

/-- `hex::encode`: two lowercase hex characters per byte. -/
def hexEncode (bs : List Nat) : List Char :=
  (bs.map byteHex).flatten

/-- The `{:x}` format of a `u64`: lowercase hex, no leading zeros, and
`"0"` for zero. -/
def natHex (n : Nat) : List Char :=
  if n = 0 then ['0'] else ((Nat.digits 16 n).map hexDigit).reverse

/-- `SnapFileMeta::to_filename`:
`format!("{}_{:x}_{:x}.zdb", hex::encode(timeline), pred_lsn, lsn)` where
`pred_lsn` is the predecessor's lsn, or 0 with no predecessor. -/
def SnapFileMeta.to_filename (m : SnapFileMeta) : String :=
  let timeline_string := hexEncode m.timeline.val
  let pred_lsn := match m.predecessor with
    | none => 0
    | some pred => pred.lsn
  String.mk (timeline_string ++ '_' :: natHex pred_lsn ++
    '_' :: natHex m.lsn ++ ['.', 'z', 'd', 'b'])

/-- The middle filename component as a function of the metadata: the
predecessor's lsn, or 0 when absent. -/
def predLsnOrZero (m : SnapFileMeta) : Nat :=
  match m.predecessor with
  | none => 0
  | some pred => pred.lsn

/-- Run a batch of `write_page` calls in order; `none` as soon as one
call does not return `Ok`. -/
def writeAll : SnapWriter → List (Nat × Page) → Option SnapWriter
  | w, [] => some w
  | w, (n, p) :: rest =>
    match w.write_page n p with
    | WriteOutcome.ok w1 => writeAll w1 rest
    | WriteOutcome.err _ _ => none
    | WriteOutcome.panicked _ _ => none

/-- The page index's sortedness invariant: strictly increasing keys, as
maintained by `BTreeMap`. -/
def MapSorted (m : List (Nat × PageLocation)) : Prop :=
  m.Pairwise fun a b => a.1 < b.1

/-- Invariant tying a writer's state to the history `hist` of pages
written so far (in call order): the pages chapter is the concatenation of
the written pages, the next ordinal is the number of writes, and the
index maps each written page number to the ordinal of its write. -/
structure WriterInv (meta : SnapFileMeta) (hist : List (Nat × Page))
    (w : SnapWriter) : Prop where
  meta_eq : w.meta = meta
  bytes_eq : w.pagesBytes = (hist.map fun e => e.2.val).flatten
  offset_eq : w.current_offset.val = hist.length
  sorted : MapSorted w.page_index.map
  length_eq : w.page_index.map.length = hist.length
  mem_iff : ∀ key i, (key, PageLocation.mk i) ∈ w.page_index.map ↔
    ∃ pg, hist[i]? = some (key, pg)

/-- The `(page_num, page)` item an index entry denotes, looking the
ordinal up in the write history. -/
def pageContents (ws : List (Nat × Page)) (e : Nat × PageLocation) :
    Nat × Page :=
  (e.1,
   match ws[e.2.val]? with
   | some q => q.2
   | none => ⟨List.replicate 8192 0, List.length_replicate 8192 0⟩)

/-- A concrete 16-byte timeline, for witnesses. -/
def T0 : Timeline := ⟨List.replicate 16 99, by decide⟩

/-- A concrete page filled with one byte value, for witnesses. -/
def mkPage (b : Nat) : Page :=
  ⟨List.replicate 8192 b, List.length_replicate 8192 b⟩

/-- A concrete base metadata, for witnesses. -/
def meta0 : SnapFileMeta := ⟨T0, none, 1234⟩

/-- A concrete metadata with a predecessor, for witnesses. -/
def meta1 : SnapFileMeta := ⟨T0, some ⟨T0, 3⟩, 5⟩

/-- The writer state after writing page 5 into a fresh writer, for
witnesses. -/
def w0 : SnapWriter := ⟨(mkPage 5).val, ⟨[(5, ⟨0⟩)]⟩, meta0, ⟨1⟩⟩

/-- A concrete on-disk file whose pages chapter is only 3 bytes long,
for witnesses: page 5 is indexed at ordinal 0 but its read truncates. -/
def disk0 : DiskFile :=
  ⟨SNAPFILE_MAGIC, none, some [1, 2, 3], some (Decoded.good ⟨[(5, ⟨0⟩)]⟩)⟩

/-- The reader over `disk0`, for witnesses. -/
def f0 : SnapFile := ⟨disk0, ⟨[(5, ⟨0⟩)]⟩⟩

/-- A concrete two-page write batch (out of page-number order), mirroring
the crate's `snap_two_pages` test, for witnesses. -/
def ws0 : List (Nat × Page) := [(99, mkPage 99), (33, mkPage 33)]

/-- The writer state after running the batch `ws0`, for witnesses. -/
def w99_33 : SnapWriter :=
  ⟨(mkPage 99).val ++ (mkPage 33).val, ⟨[(33, ⟨1⟩), (99, ⟨0⟩)]⟩, meta0, ⟨2⟩⟩

/-- The writer state at the moment the duplicate-page panic fires when
page 5 is written into `w0` a second time, for witnesses. -/
def w0dup : SnapWriter :=
  ⟨(mkPage 5).val ++ (mkPage 7).val, ⟨[(5, ⟨1⟩)]⟩, meta0, ⟨1⟩⟩

/-! ### Association-list lemmas for the `BTreeMap` model -/

theorem mapGet_eq_none_iff (m : List (Nat × PageLocation)) (key : Nat) :
    mapGet m key = none ↔ key ∉ m.map Prod.fst := by
  induction m with
  | nil => simp [mapGet]
  | cons e rest ih =>
    obtain ⟨k, v⟩ := e
    by_cases h : key = k <;> simp [mapGet, h, ih]

theorem mapGet_isSome_iff (m : List (Nat × PageLocation)) (key : Nat) :
    (mapGet m key).isSome = true ↔ key ∈ m.map Prod.fst := by
  induction m with
  | nil => simp [mapGet]
  | cons e rest ih =>
    obtain ⟨k, v⟩ := e
    by_cases h : key = k <;> simp [mapGet, h, ih]

theorem mapGet_mem {m : List (Nat × PageLocation)} {key : Nat}
    {v : PageLocation} (h : mapGet m key = some v) : (key, v) ∈ m := by
  induction m with
  | nil => simp [mapGet] at h
  | cons e rest ih =>
    obtain ⟨k, w⟩ := e
    by_cases hk : key = k
    · subst hk
      simp [mapGet] at h
      simp [h]
    · simp [mapGet, hk] at h
      exact List.mem_cons_of_mem _ (ih h)

theorem mem_mapGet_of_sorted {m : List (Nat × PageLocation)}
    (hs : MapSorted m) {key : Nat} {v : PageLocation} (h : (key, v) ∈ m) :
    mapGet m key = some v := by
  induction m with
  | nil => simp at h
  | cons e rest ih =>
    obtain ⟨k, w⟩ := e
    rw [MapSorted, List.pairwise_cons] at hs
    rcases List.mem_cons.mp h with heq | hmem
    · obtain ⟨h1, h2⟩ := Prod.mk.injEq .. ▸ heq
      simp [mapGet, h1, h2]
    · have hlt : k < key := hs.1 _ hmem
      have hne : key ≠ k := by omega
      simpa [mapGet, hne] using ih hs.2 hmem

theorem mapGet_eq_none_of_forall_lt {m : List (Nat × PageLocation)}
    {key : Nat} (h : ∀ e ∈ m, key < e.1) : mapGet m key = none := by
  rw [mapGet_eq_none_iff]
  intro hmem
  obtain ⟨e, he, hfst⟩ := List.mem_map.mp hmem
  exact absurd (hfst ▸ h e he) (lt_irrefl key)

theorem mem_mapInsert {m : List (Nat × PageLocation)} {key : Nat}
    {v : PageLocation} {e : Nat × PageLocation}
    (h : e ∈ (mapInsert m key v).1) : e = (key, v) ∨ e ∈ m := by
  induction m with
  | nil =>
    simp [mapInsert] at h
    simp [h]
  | cons hd rest ih =>
    obtain ⟨k, w⟩ := hd
    by_cases h1 : key < k
    · simp [mapInsert, h1, List.mem_cons] at h ⊢
      tauto
    · by_cases h2 : key = k
      · subst h2
        simp [mapInsert, h1, List.mem_cons] at h ⊢
        tauto
      · simp [mapInsert, h1, h2] at h
        rcases h with h | h
        · simp [h]
        · rcases ih h with h' | h'
          · exact Or.inl h'
          · exact Or.inr (List.mem_cons_of_mem _ h')

theorem mapInsert_sorted {m : List (Nat × PageLocation)}
    (hs : MapSorted m) (key : Nat) (v : PageLocation) :
    MapSorted (mapInsert m key v).1 := by
  induction m with
  | nil => simp [mapInsert, MapSorted]
  | cons hd rest ih =>
    obtain ⟨k, w⟩ := hd
    rw [MapSorted, List.pairwise_cons] at hs
    by_cases h1 : key < k
    · rw [MapSorted]
      simp only [mapInsert, if_pos h1]
      rw [List.pairwise_cons]
      constructor
      · intro e he
        rcases List.mem_cons.mp he with rfl | hmem
        · exact h1
        · exact lt_trans h1 (hs.1 e hmem)
      · rw [List.pairwise_cons]
        exact hs
    · by_cases h2 : key = k
      · rw [MapSorted]
        simp only [mapInsert, if_neg h1, if_pos h2]
        rw [List.pairwise_cons]
        exact ⟨fun e he => h2 ▸ hs.1 e he, hs.2⟩
      · rw [MapSorted]
        simp only [mapInsert, if_neg h1, if_neg h2]
        rw [List.pairwise_cons]
        constructor
        · intro e he
          rcases mem_mapInsert he with rfl | hmem
          · omega
          · exact hs.1 e hmem
        · exact ih hs.2

theorem mapInsert_snd {m : List (Nat × PageLocation)} (hs : MapSorted m)
    (key : Nat) (v : PageLocation) :
    (mapInsert m key v).2 = mapGet m key := by
  induction m with
  | nil => rfl
  | cons hd rest ih =>
    obtain ⟨k, w⟩ := hd
    rw [MapSorted, List.pairwise_cons] at hs
    by_cases h1 : key < k
    · have hne : key ≠ k := by omega
      have : mapGet rest key = none :=
        mapGet_eq_none_of_forall_lt fun e he => lt_trans h1 (hs.1 e he)
      simp [mapInsert, mapGet, h1, hne, this]
    · by_cases h2 : key = k
      · simp [mapInsert, mapGet, h1, h2]
      · simp [mapInsert, mapGet, h1, h2, ih hs.2]

theorem mapGet_mapInsert_self (m : List (Nat × PageLocation)) (key : Nat)
    (v : PageLocation) : mapGet (mapInsert m key v).1 key = some v := by
  induction m with
  | nil => simp [mapInsert, mapGet]
  | cons hd rest ih =>
    obtain ⟨k, w⟩ := hd
    by_cases h1 : key < k
    · simp [mapInsert, mapGet, h1]
    · by_cases h2 : key = k
      · simp [mapInsert, mapGet, h1, h2]
      · simp [mapInsert, mapGet, h1, h2, ih]

theorem mapInsert_length {m : List (Nat × PageLocation)} {key : Nat}
    (v : PageLocation) (hnone : mapGet m key = none) :
    (mapInsert m key v).1.length = m.length + 1 := by
  induction m with
  | nil => rfl
  | cons hd rest ih =>
    obtain ⟨k, w⟩ := hd
    have hne : key ≠ k := by
      intro h
      simp [mapGet, h] at hnone
    have hrest : mapGet rest key = none := by
      simpa [mapGet, hne] using hnone
    by_cases h1 : key < k
    · simp [mapInsert, h1]
    · simp [mapInsert, h1, hne, ih hrest]

theorem mapInsert_mem_iff {m : List (Nat × PageLocation)} {key : Nat}
    {v : PageLocation} (hnone : mapGet m key = none)
    (e : Nat × PageLocation) :
    e ∈ (mapInsert m key v).1 ↔ e = (key, v) ∨ e ∈ m := by
  constructor
  · exact mem_mapInsert
  · intro h
    induction m with
    | nil =>
      simp at h
      simp [mapInsert, h]
    | cons hd rest ih =>
      obtain ⟨k, w⟩ := hd
      have hne : key ≠ k := by
        intro hkk
        simp [mapGet, hkk] at hnone
      have hrest : mapGet rest key = none := by
        simpa [mapGet, hne] using hnone
      by_cases h1 : key < k
      · simp only [mapInsert, if_pos h1]
        rcases h with rfl | hmem
        · exact List.mem_cons_self _ _
        · exact List.mem_cons_of_mem _ hmem
      · simp only [mapInsert, if_neg h1, if_neg hne]
        rcases h with rfl | hmem
        · exact List.mem_cons_of_mem _ (ih hrest (Or.inl rfl))
        · rcases List.mem_cons.mp hmem with rfl | hmem'
          · exact List.mem_cons_self _ _
          · exact List.mem_cons_of_mem _ (ih hrest (Or.inr hmem'))

theorem keys_mapInsert_superset {m : List (Nat × PageLocation)}
    {key : Nat} {v : PageLocation} {k' : Nat}
    (h : k' ∈ m.map Prod.fst) :
    k' ∈ (mapInsert m key v).1.map Prod.fst := by
  induction m with
  | nil => simp at h
  | cons hd rest ih =>
    obtain ⟨k, w⟩ := hd
    by_cases h1 : key < k
    · simp only [mapInsert, if_pos h1]
      simp at h ⊢
      tauto
    · by_cases h2 : key = k
      · simp only [mapInsert, if_neg h1, if_pos h2]
        simp at h ⊢
        rcases h with rfl | h
        · exact Or.inl h2.symm
        · tauto
      · simp only [mapInsert, if_neg h1, if_neg h2]
        simp at h ⊢
        rcases h with rfl | h
        · exact Or.inl rfl
        · exact Or.inr (by simpa using ih (by simpa using h))

/-! ### Writer-step characterizations -/

theorem write_page_ok_eq (w : SnapWriter) (n : Nat) (p : Page)
    (h2 : (mapInsert w.page_index.map n w.current_offset).2 = none) :
    w.write_page n p = WriteOutcome.ok
      { pagesBytes := w.pagesBytes ++ p.val
        page_index := ⟨(mapInsert w.page_index.map n w.current_offset).1⟩
        meta := w.meta
        current_offset := ⟨w.current_offset.val + 1⟩ } := by
  unfold SnapWriter.write_page
  simp only [h2]

theorem write_page_dup_eq (w : SnapWriter) (n : Nat) (p : Page)
    (prev : PageLocation)
    (h2 : (mapInsert w.page_index.map n w.current_offset).2 = some prev) :
    w.write_page n p = WriteOutcome.panicked
      ("duplicate index for page " ++ Nat.repr n)
      { pagesBytes := w.pagesBytes ++ p.val
        page_index := ⟨(mapInsert w.page_index.map n w.current_offset).1⟩
        meta := w.meta
        current_offset := w.current_offset } := by
  unfold SnapWriter.write_page
  simp only [h2]

theorem write_page_panicked_inv (w : SnapWriter) (n : Nat) (p : Page)
    (msg : String) (w' : SnapWriter)
    (h : w.write_page n p = WriteOutcome.panicked msg w') :
    w'.pagesBytes = w.pagesBytes ++ p.val ∧
    w'.page_index.map = (mapInsert w.page_index.map n w.current_offset).1 ∧
    w'.meta = w.meta ∧ w'.current_offset = w.current_offset := by
  unfold SnapWriter.write_page at h
  cases h2 : (mapInsert w.page_index.map n w.current_offset).2 with
  | none =>
    simp only [h2] at h
    cases h
  | some prev =>
    simp only [h2, WriteOutcome.panicked.injEq] at h
    rw [← h.2]
    exact ⟨rfl, rfl, rfl, rfl⟩

theorem write_page_ok_inv (w : SnapWriter) (n : Nat) (p : Page)
    (w' : SnapWriter) (h : w.write_page n p = WriteOutcome.ok w') :
    w'.pagesBytes = w.pagesBytes ++ p.val ∧
    w'.page_index.map = (mapInsert w.page_index.map n w.current_offset).1 ∧
    w'.meta = w.meta ∧ w'.current_offset.val = w.current_offset.val + 1 ∧
    (mapInsert w.page_index.map n w.current_offset).2 = none := by
  unfold SnapWriter.write_page at h
  cases h2 : (mapInsert w.page_index.map n w.current_offset).2 with
  | some prev =>
    simp only [h2] at h
    cases h
  | none =>
    simp only [h2, WriteOutcome.ok.injEq] at h
    rw [← h]
    exact ⟨rfl, rfl, rfl, rfl, rfl⟩

/-! ### The writer invariant through a batch of writes -/

theorem writerInv_new (meta : SnapFileMeta) :
    WriterInv meta [] (SnapWriter.new meta) := by
  refine ⟨rfl, rfl, rfl, List.Pairwise.nil, rfl, ?_⟩
  intro key i
  simp [SnapWriter.new]

theorem inv_mapGet_none {meta : SnapFileMeta} {hist : List (Nat × Page)}
    {w : SnapWriter} (hinv : WriterInv meta hist w) {n : Nat}
    (hn : n ∉ hist.map Prod.fst) : mapGet w.page_index.map n = none := by
  rw [mapGet_eq_none_iff]
  intro hmem
  obtain ⟨e, he, hfst⟩ := List.mem_map.mp hmem
  obtain ⟨pg, hget⟩ := (hinv.mem_iff e.1 e.2.val).mp he
  obtain ⟨hi, helem⟩ := List.getElem?_eq_some.mp hget
  have : (e.1, pg) ∈ hist := helem ▸ hist.getElem_mem hi
  exact hn (hfst ▸ List.mem_map.mpr ⟨(e.1, pg), this, rfl⟩)

theorem writeAll_inv (meta : SnapFileMeta) :
    ∀ (ws hist : List (Nat × Page)) (w : SnapWriter),
      WriterInv meta hist w →
      ((hist ++ ws).map Prod.fst).Nodup →
      ∃ w', writeAll w ws = some w' ∧ WriterInv meta (hist ++ ws) w' := by
  intro ws
  induction ws with
  | nil =>
    intro hist w hinv _
    exact ⟨w, rfl, by simpa using hinv⟩
  | cons e rest ih =>
    obtain ⟨n, p⟩ := e
    intro hist w hinv hnd
    -- The new page number has not been written before.
    have hn_hist : n ∉ hist.map Prod.fst := by
      rw [List.map_append] at hnd
      have hdisj := List.disjoint_of_nodup_append hnd
      intro hmem
      exact hdisj hmem (by simp)
    have hget : mapGet w.page_index.map n = none := inv_mapGet_none hinv hn_hist
    have h2 : (mapInsert w.page_index.map n w.current_offset).2 = none := by
      rw [mapInsert_snd hinv.sorted, hget]
    -- The successful write step.
    set w1 : SnapWriter :=
      { pagesBytes := w.pagesBytes ++ p.val
        page_index := ⟨(mapInsert w.page_index.map n w.current_offset).1⟩
        meta := w.meta
        current_offset := ⟨w.current_offset.val + 1⟩ } with hw1
    have hstep : w.write_page n p = WriteOutcome.ok w1 := write_page_ok_eq w n p h2
    -- The invariant after the step, with the new page appended to history.
    have hinv1 : WriterInv meta (hist ++ [(n, p)]) w1 := by
      refine ⟨hinv.meta_eq, ?_, ?_, ?_, ?_, ?_⟩
      · rw [hw1]
        simp only [List.map_append, List.flatten_append, hinv.bytes_eq]
        simp
      · rw [hw1]
        simp [hinv.offset_eq]
      · exact mapInsert_sorted hinv.sorted n w.current_offset
      · rw [hw1]
        simp only [List.length_append, List.length_singleton]
        simp [mapInsert_length _ hget, hinv.length_eq]
      · intro key i
        rw [hw1]
        simp only
        rw [mapInsert_mem_iff hget]
        constructor
        · rintro (heq | hmem)
          · have hk : key = n := congrArg Prod.fst heq
            have hv : PageLocation.mk i = w.current_offset :=
              congrArg Prod.snd heq
            have hival : i = hist.length := by
              have := congrArg PageLocation.val hv
              simpa [hinv.offset_eq] using this
            subst hk
            exact ⟨p, by rw [hival]; exact List.getElem?_concat_length hist (key, p)⟩
          · obtain ⟨pg, hpg⟩ := (hinv.mem_iff key i).mp hmem
            have hi : i < hist.length := (List.getElem?_eq_some.mp hpg).1
            exact ⟨pg, by rw [List.getElem?_append, if_pos hi]; exact hpg⟩
        · rintro ⟨pg, hpg⟩
          rcases Nat.lt_trichotomy i hist.length with hi | hi | hi
          · right
            rw [(hinv.mem_iff key i)]
            refine ⟨pg, ?_⟩
            rwa [List.getElem?_append, if_pos hi] at hpg
          · left
            subst hi
            rw [List.getElem?_concat_length, Option.some.injEq] at hpg
            have hk : n = key := congrArg Prod.fst hpg
            subst hk
            have hco : PageLocation.mk hist.length = w.current_offset :=
              congrArg PageLocation.mk hinv.offset_eq.symm
            rw [hco]
          · exfalso
            have : (hist ++ [(n, p)])[i]? = none := by
              apply List.getElem?_eq_none
              simp
              omega
            rw [this] at hpg
            cases hpg
    -- Recurse on the remaining writes.
    have hnd' : ((hist ++ [(n, p)]) ++ rest).map Prod.fst |>.Nodup := by
      rw [List.append_assoc]
      simpa using hnd
    obtain ⟨w', hall, hinv'⟩ := ih (hist ++ [(n, p)]) w1 hinv1 hnd'
    refine ⟨w', ?_, ?_⟩
    · simp only [writeAll, hstep]
      exact hall
    · rw [show hist ++ (n, p) :: rest = (hist ++ [(n, p)]) ++ rest by
        rw [List.append_assoc]; rfl]
      exact hinv'

/-! ### Reading back a finished file -/

theorem flatten_extract :
    ∀ (ps : List (Nat × Page)) (i n : Nat) (pg : Page),
      ps[i]? = some (n, pg) →
      (((ps.map fun e => e.2.val).flatten.drop (i * 8192)).take 8192) =
        pg.val := by
  intro ps
  induction ps with
  | nil => intro i n pg h; simp at h
  | cons hd tl ih =>
    intro i n pg h
    cases i with
    | zero =>
      simp only [List.getElem?_cons_zero, Option.some.injEq] at h
      subst h
      simp only [List.map_cons, List.flatten_cons, Nat.zero_mul,
        List.drop_zero]
      have ht := List.take_left pg.val ((tl.map fun e => e.2.val).flatten)
      rw [pg.2] at ht
      exact ht
    | succ j =>
      simp only [List.getElem?_cons_succ] at h
      have hlen : (j + 1) * 8192 = hd.2.val.length + j * 8192 := by
        rw [hd.2.2]
        ring
      simp only [List.map_cons, List.flatten_cons, hlen]
      rw [← List.drop_drop, List.drop_left]
      exact ih j n pg h

theorem finish_new_eq (w : SnapWriter) :
    SnapFile.new (SnapWriter.finish w).2 =
      Except.ok ⟨(SnapWriter.finish w).2, w.page_index⟩ := rfl

theorem read_page_inv {meta : SnapFileMeta} {ws : List (Nat × Page)}
    {w : SnapWriter} (hinv : WriterInv meta ws w) {n : Nat} {pg : Page}
    (hmem : (n, pg) ∈ ws) :
    SnapFile.read_page ⟨(SnapWriter.finish w).2, w.page_index⟩ n =
      Except.ok (some pg) := by
  obtain ⟨i, hget⟩ := List.mem_iff_getElem?.mp hmem
  have hmemidx : (n, PageLocation.mk i) ∈ w.page_index.map :=
    (hinv.mem_iff n i).mpr ⟨pg, hget⟩
  have hmg : mapGet w.page_index.map n = some (PageLocation.mk i) :=
    mem_mapGet_of_sorted hinv.sorted hmemidx
  have hchunk :
      ((w.pagesBytes.drop (i * 8192)).take 8192) = pg.val := by
    rw [hinv.bytes_eq]
    exact flatten_extract ws i n pg hget
  simp only [SnapFile.read_page, PageIndex.get_page_location, hmg]
  simp only [SnapFile._read_page, SnapWriter.finish, PageLocation.to_offset]
  simp only [hchunk]
  rw [dif_pos pg.2]
  rfl

theorem has_page_inv {meta : SnapFileMeta} {ws : List (Nat × Page)}
    {w : SnapWriter} (hinv : WriterInv meta ws w) (p : Nat) :
    SnapFile.has_page ⟨(SnapWriter.finish w).2, w.page_index⟩ p = true ↔
      p ∈ ws.map Prod.fst := by
  simp only [SnapFile.has_page, PageIndex.get_page_location]
  rw [mapGet_isSome_iff]
  constructor
  · intro hmem
    obtain ⟨e, he, hfst⟩ := List.mem_map.mp hmem
    obtain ⟨pg, hget⟩ := (hinv.mem_iff e.1 e.2.val).mp he
    obtain ⟨hi, helem⟩ := List.getElem?_eq_some.mp hget
    have : (e.1, pg) ∈ ws := helem ▸ ws.getElem_mem hi
    exact hfst ▸ List.mem_map.mpr ⟨(e.1, pg), this, rfl⟩
  · intro hmem
    obtain ⟨e, he, hfst⟩ := List.mem_map.mp hmem
    obtain ⟨i, hget⟩ := List.mem_iff_getElem?.mp he
    have : (e.1, PageLocation.mk i) ∈ w.page_index.map :=
      (hinv.mem_iff e.1 i).mpr ⟨e.2, by rw [hget]⟩
    exact hfst ▸ List.mem_map.mpr ⟨(e.1, PageLocation.mk i), this, rfl⟩

theorem writeAll_meta :
    ∀ (ws : List (Nat × Page)) (w w' : SnapWriter),
      writeAll w ws = some w' → w'.meta = w.meta := by
  intro ws
  induction ws with
  | nil =>
    intro w w' h
    simp only [writeAll, Option.some.injEq] at h
    rw [← h]
  | cons e rest ih =>
    obtain ⟨n, p⟩ := e
    intro w w' h
    cases ho : w.write_page n p with
    | err e' w1 => simp [writeAll, ho] at h
    | panicked m w1 => simp [writeAll, ho] at h
    | ok w1 =>
      simp only [writeAll, ho] at h
      exact (ih w1 w' h).trans (write_page_ok_inv w n p w1 ho).2.2.1

theorem writeAll_keys :
    ∀ (ws : List (Nat × Page)) (w w' : SnapWriter),
      writeAll w ws = some w' → MapSorted w.page_index.map →
      MapSorted w'.page_index.map ∧
      (∀ k, k ∈ ws.map Prod.fst → k ∈ w'.page_index.map.map Prod.fst) ∧
      (∀ k, k ∈ w.page_index.map.map Prod.fst →
        k ∈ w'.page_index.map.map Prod.fst) := by
  intro ws
  induction ws with
  | nil =>
    intro w w' h hs
    simp only [writeAll, Option.some.injEq] at h
    subst h
    exact ⟨hs, by simp, fun k hk => hk⟩
  | cons e rest ih =>
    obtain ⟨n, p⟩ := e
    intro w w' h hs
    cases ho : w.write_page n p with
    | err e' w1 => simp [writeAll, ho] at h
    | panicked m w1 => simp [writeAll, ho] at h
    | ok w1 =>
      simp only [writeAll, ho] at h
      obtain ⟨_, hmap, _, _, _⟩ := write_page_ok_inv w n p w1 ho
      have hs1 : MapSorted w1.page_index.map := by
        rw [hmap]
        exact mapInsert_sorted hs n w.current_offset
      obtain ⟨hs', hkeys, hold⟩ := ih w1 w' h hs1
      refine ⟨hs', ?_, ?_⟩
      · intro k hk
        simp only [List.map_cons, List.mem_cons] at hk
        rcases hk with rfl | hk
        · have hget1 : mapGet w1.page_index.map k = some w.current_offset := by
            rw [hmap]
            exact mapGet_mapInsert_self _ _ _
          apply hold k
          rw [← mapGet_isSome_iff, hget1]
          rfl
        · exact hkeys k hk
      · intro k hk
        apply hold k
        rw [hmap]
        exact keys_mapInsert_superset hk

theorem all_pages_inv {meta : SnapFileMeta} {ws : List (Nat × Page)}
    {w : SnapWriter} (hinv : WriterInv meta ws w) :
    SnapFile.all_pages ⟨(SnapWriter.finish w).2, w.page_index⟩ =
      (w.page_index.map.map (pageContents ws)).map Except.ok := by
  rw [SnapFile.all_pages, List.map_map]
  apply List.map_congr_left
  intro e he
  obtain ⟨pg, hget⟩ := (hinv.mem_iff e.1 e.2.val).mp he
  have hchunk : ((w.pagesBytes.drop (e.2.val * 8192)).take 8192) = pg.val := by
    rw [hinv.bytes_eq]
    exact flatten_extract ws e.2.val e.1 pg hget
  simp only [SnapFile._read_page, SnapWriter.finish, PageLocation.to_offset,
    hchunk]
  rw [dif_pos pg.2]
  simp only [Except.map, Function.comp_apply, pageContents, hget]

theorem items_fst (ws : List (Nat × Page))
    (m : List (Nat × PageLocation)) :
    (m.map (pageContents ws)).map Prod.fst = m.map Prod.fst := by
  rw [List.map_map]
  apply List.map_congr_left
  intro e _
  rfl

theorem items_mem_iff {meta : SnapFileMeta} {ws : List (Nat × Page)}
    {w : SnapWriter} (hinv : WriterInv meta ws w) (n : Nat) (pg : Page) :
    (n, pg) ∈ w.page_index.map.map (pageContents ws) ↔ (n, pg) ∈ ws := by
  constructor
  · intro hmem
    obtain ⟨e, he, hpc⟩ := List.mem_map.mp hmem
    obtain ⟨pg', hget⟩ := (hinv.mem_iff e.1 e.2.val).mp he
    have hpc' : pageContents ws e = (e.1, pg') := by
      simp [pageContents, hget]
    rw [hpc'] at hpc
    obtain ⟨hi, helem⟩ := List.getElem?_eq_some.mp hget
    exact hpc ▸ helem ▸ ws.getElem_mem hi
  · intro hmem
    obtain ⟨i, hget⟩ := List.mem_iff_getElem?.mp hmem
    have he : (n, PageLocation.mk i) ∈ w.page_index.map :=
      (hinv.mem_iff n i).mpr ⟨pg, hget⟩
    refine List.mem_map.mpr ⟨(n, PageLocation.mk i), he, ?_⟩
    simp [pageContents, hget]

/-! ### Claims -/

/-- C1: Write/read round-trip. For every batch of pages with pairwise
distinct page numbers, written in any order through a `SnapWriter` and
then finished, reopening the finished file with `SnapFile::new` gives
`page_count()` equal to the number of pages written, `has_page(p)` true
iff `p` was one of the written page numbers, and `read_page(p)` returning
exactly the 8192 bytes written for `p`. -/
theorem C1_write_read_roundtrip (meta : SnapFileMeta)
    (ws : List (Nat × Page)) (hnd : (ws.map Prod.fst).Nodup) :
    ∃ w f, writeAll (SnapWriter.new meta) ws = some w ∧
      SnapFile.new (SnapWriter.finish w).2 = Except.ok f ∧
      f.page_count = ws.length ∧
      (∀ p, f.has_page p = true ↔ p ∈ ws.map Prod.fst) ∧
      (∀ n pg, (n, pg) ∈ ws → f.read_page n = Except.ok (some pg)) := by
  obtain ⟨w, hall, hinv⟩ := writeAll_inv meta ws [] (SnapWriter.new meta)
    (writerInv_new meta) (by simpa using hnd)
  rw [List.nil_append] at hinv
  refine ⟨w, ⟨(SnapWriter.finish w).2, w.page_index⟩, hall, finish_new_eq w,
    ?_, ?_, ?_⟩
  · simpa [SnapFile.page_count, PageIndex.page_count] using hinv.length_eq
  · exact has_page_inv hinv
  · intro n pg hmem
    exact read_page_inv hinv hmem

/-- Witness for C1 at the concrete batch `ws0` (pages 99 then 33, out of
page-number order). -/
theorem C1_witness :
    ∃ w f, writeAll (SnapWriter.new meta0) ws0 = some w ∧
      SnapFile.new (SnapWriter.finish w).2 = Except.ok f ∧
      f.page_count = ws0.length ∧
      (∀ p, f.has_page p = true ↔ p ∈ ws0.map Prod.fst) ∧
      (∀ n pg, (n, pg) ∈ ws0 → f.read_page n = Except.ok (some pg)) :=
  C1_write_read_roundtrip meta0 ws0 (by decide)

/-- C8: identity round-trip. `finish()` returns the metadata supplied at
writer creation, unchanged by any intervening `write_page` calls, and
`read_meta()` on the finished, reopened file returns that metadata. -/
theorem C8_identity_roundtrip (meta : SnapFileMeta)
    (ws : List (Nat × Page)) (w : SnapWriter)
    (hw : writeAll (SnapWriter.new meta) ws = some w) :
    (SnapWriter.finish w).1 = meta ∧
    ∃ f, SnapFile.new (SnapWriter.finish w).2 = Except.ok f ∧
      f.read_meta = Except.ok meta := by
  have hmeta : w.meta = meta := writeAll_meta ws _ w hw
  constructor
  · exact hmeta
  · refine ⟨⟨(SnapWriter.finish w).2, w.page_index⟩, finish_new_eq w, ?_⟩
    simp [SnapFile.read_meta, SnapWriter.finish, hmeta]

/-- Witness for C8 at the concrete batch `ws0`. -/
theorem C8_witness :
    (SnapWriter.finish w99_33).1 = meta0 ∧
    ∃ f, SnapFile.new (SnapWriter.finish w99_33).2 = Except.ok f ∧
      f.read_meta = Except.ok meta0 :=
  C8_identity_roundtrip meta0 ws0 w99_33 rfl

/-- C3: writing a page number already written in the same writer session
is a panic (a fatal, unrecoverable abort), never an `Ok` and never an
`Err`. -/
theorem C3_duplicate_write_panics (meta : SnapFileMeta)
    (ws : List (Nat × Page)) (w : SnapWriter) (n : Nat) (pg : Page)
    (hw : writeAll (SnapWriter.new meta) ws = some w)
    (hn : n ∈ ws.map Prod.fst) :
    (∃ msg w', w.write_page n pg = WriteOutcome.panicked msg w') ∧
    (∀ w', w.write_page n pg ≠ WriteOutcome.ok w') ∧
    (∀ e w', w.write_page n pg ≠ WriteOutcome.err e w') := by
  obtain ⟨hs', hkeys, _⟩ :=
    writeAll_keys ws _ w hw (List.Pairwise.nil : MapSorted [])
  have hkey : n ∈ w.page_index.map.map Prod.fst := hkeys n hn
  have hsome : (mapGet w.page_index.map n).isSome :=
    (mapGet_isSome_iff _ n).mpr hkey
  obtain ⟨prev, hprev⟩ := Option.isSome_iff_exists.mp hsome
  have h2 : (mapInsert w.page_index.map n w.current_offset).2 = some prev := by
    rw [mapInsert_snd hs', hprev]
  have hp := write_page_dup_eq w n pg prev h2
  refine ⟨⟨_, _, hp⟩, ?_, ?_⟩
  · intro w' hcon
    rw [hp] at hcon
    cases hcon
  · intro e w' hcon
    rw [hp] at hcon
    cases hcon

/-- Witness for C3: rewriting page 5 into the writer that already wrote
page 5. -/
theorem C3_witness :
    (∃ msg w', w0.write_page 5 (mkPage 7) = WriteOutcome.panicked msg w') ∧
    (∀ w', w0.write_page 5 (mkPage 7) ≠ WriteOutcome.ok w') ∧
    (∀ e w', w0.write_page 5 (mkPage 7) ≠ WriteOutcome.err e w') :=
  C3_duplicate_write_panics meta0 [(5, mkPage 5)] w0 5 (mkPage 7) rfl
    (by decide)

/-- C9: iterating a finished snapshot with `all_pages` yields one item
per indexed page — exactly the set of written pages, in strictly
ascending page-number order (not write order), each with its
byte-identical 8192-byte contents. -/
theorem C9_all_pages_iteration (meta : SnapFileMeta)
    (ws : List (Nat × Page)) (hnd : (ws.map Prod.fst).Nodup) :
    ∃ (w : SnapWriter) (f : SnapFile) (items : List (Nat × Page)),
      writeAll (SnapWriter.new meta) ws = some w ∧
      SnapFile.new (SnapWriter.finish w).2 = Except.ok f ∧
      f.all_pages = items.map Except.ok ∧
      f.all_pages.length = f.page_count ∧
      (items.map Prod.fst).Pairwise (· < ·) ∧
      (∀ n pg, (n, pg) ∈ items ↔ (n, pg) ∈ ws) := by
  obtain ⟨w, hall, hinv⟩ := writeAll_inv meta ws [] (SnapWriter.new meta)
    (writerInv_new meta) (by simpa using hnd)
  rw [List.nil_append] at hinv
  refine ⟨w, ⟨(SnapWriter.finish w).2, w.page_index⟩,
    w.page_index.map.map (pageContents ws), hall, finish_new_eq w,
    all_pages_inv hinv, ?_, ?_, ?_⟩
  · simp [SnapFile.all_pages, SnapFile.page_count, PageIndex.page_count]
  · rw [items_fst, List.pairwise_map]
    exact hinv.sorted
  · intro n pg
    exact items_mem_iff hinv n pg

/-- Witness for C9 at the concrete batch `ws0`. -/
theorem C9_witness :
    ∃ (w : SnapWriter) (f : SnapFile) (items : List (Nat × Page)),
      writeAll (SnapWriter.new meta0) ws0 = some w ∧
      SnapFile.new (SnapWriter.finish w).2 = Except.ok f ∧
      f.all_pages = items.map Except.ok ∧
      f.all_pages.length = f.page_count ∧
      (items.map Prod.fst).Pairwise (· < ·) ∧
      (∀ n pg, (n, pg) ∈ items ↔ (n, pg) ∈ ws0) :=
  C9_all_pages_iteration meta0 ws0 (by decide)

/-- C10: `write_page` mutates state before detecting a duplicate — at
the moment the duplicate-detection panic fires, the 8192-byte payload
has already been appended to the pages chapter and the index entry has
already been replaced by the new ordinal (the error path is not
atomic). -/
theorem C10_write_page_panic_mutates (w : SnapWriter) (n : Nat)
    (pg : Page) (msg : String) (w' : SnapWriter)
    (h : w.write_page n pg = WriteOutcome.panicked msg w') :
    w'.pagesBytes = w.pagesBytes ++ pg.val ∧
    mapGet w'.page_index.map n = some w.current_offset ∧
    w'.pagesBytes ≠ w.pagesBytes ∧
    w'.current_offset = w.current_offset := by
  obtain ⟨hb, hm, _, hc⟩ := write_page_panicked_inv w n pg msg w' h
  refine ⟨hb, ?_, ?_, hc⟩
  · rw [hm]
    exact mapGet_mapInsert_self _ _ _
  · rw [hb]
    intro hcon
    have hlen := congrArg List.length hcon
    rw [List.length_append, pg.2] at hlen
    omega
/-- Witness for C10: the duplicate write of page 5 into `w0` panics with
the pages chapter already extended and the index already pointing at the
new ordinal. -/
theorem C10_witness :
    w0dup.pagesBytes = w0.pagesBytes ++ (mkPage 7).val ∧
    mapGet w0dup.page_index.map 5 = some w0.current_offset ∧
    w0dup.pagesBytes ≠ w0.pagesBytes ∧
    w0dup.current_offset = w0.current_offset :=
  C10_write_page_panic_mutates w0 5 (mkPage 7)
    ("duplicate index for page " ++ Nat.repr 5) w0dup rfl

/-- C2: `read_page(page_num)` returns `Ok(None)` (a normal value, not an
error) whenever the page number is absent from the loaded index; when
present it reads at byte offset `ordinal * 8192` in the pages chapter,
returning the full 8192-byte page when available there and failing with
the "read truncated page" corruption error exactly when fewer than 8192
bytes come back. -/
theorem C2_read_page_behavior (f : SnapFile) (n : Nat) :
    (f.page_index.get_page_location n = none →
      f.read_page n = Except.ok none) ∧
    (∀ loc data, f.page_index.get_page_location n = some loc →
      f.book.pagesChapter = some data →
      ((((data.drop (loc.val * 8192)).take 8192).length = 8192 →
        ∃ h, f.read_page n =
          Except.ok (some ⟨(data.drop (loc.val * 8192)).take 8192, h⟩)) ∧
      (((data.drop (loc.val * 8192)).take 8192).length ≠ 8192 →
        f.read_page n = Except.error SnapError.truncatedPage))) := by
  constructor
  · intro h
    simp [SnapFile.read_page, h]
  · intro loc data hloc hdata
    constructor
    · intro hlen
      refine ⟨hlen, ?_⟩
      simp only [SnapFile.read_page, hloc, SnapFile._read_page, hdata,
        PageLocation.to_offset]
      rw [dif_pos hlen]
      rfl
    · intro hlen
      simp only [SnapFile.read_page, hloc, SnapFile._read_page, hdata,
        PageLocation.to_offset]
      rw [dif_neg hlen]
      rfl

/-- Witness for C2 at `f0`: page 7 is absent (normal `Ok(None)`), and
page 5 is indexed but its read truncates in the 3-byte pages chapter. -/
theorem C2_witness :
    f0.read_page 7 = Except.ok none ∧
    f0.read_page 5 = Except.error SnapError.truncatedPage :=
  ⟨(C2_read_page_behavior f0 7).1 rfl,
   ((C2_read_page_behavior f0 5).2 ⟨0⟩ [1, 2, 3] rfl rfl).2 (by decide)⟩

/-- C4: `SnapFile::new` fails with the bad-magic format error when the
container's magic tag differs from this format's value — and does so for
every possible chapter content, i.e. before any chapter is read; with
the right magic it fails when the page-index chapter is absent or cannot
be decoded; on success the entire decoded page index is held in memory
in the returned reader. -/
theorem C4_new_validation :
    (∀ (magic : Nat) mc pc ic, magic ≠ SNAPFILE_MAGIC →
      SnapFile.new ⟨magic, mc, pc, ic⟩ = Except.error SnapError.badMagic) ∧
    (∀ d : DiskFile, d.magic = SNAPFILE_MAGIC →
      (d.indexChapter = none →
        SnapFile.new d = Except.error SnapError.missingIndexChapter) ∧
      (d.indexChapter = some Decoded.malformed →
        SnapFile.new d = Except.error SnapError.malformedIndex) ∧
      (∀ idx, d.indexChapter = some (Decoded.good idx) →
        SnapFile.new d = Except.ok ⟨d, idx⟩)) := by
  constructor
  · intro magic mc pc ic h
    simp [SnapFile.new, h]
  · intro d hm
    refine ⟨?_, ?_, ?_⟩
    · intro h
      simp [SnapFile.new, hm, h]
    · intro h
      simp [SnapFile.new, hm, h]
    · intro idx h
      simp [SnapFile.new, hm, h]

/-- Witness for C4: a zero magic tag is rejected whatever the chapters
hold; with the right magic, a missing index chapter is rejected and a
good one is loaded. -/
theorem C4_witness :
    SnapFile.new ⟨0, none, none, none⟩ = Except.error SnapError.badMagic ∧
    SnapFile.new ⟨SNAPFILE_MAGIC, none, none, none⟩ =
      Except.error SnapError.missingIndexChapter ∧
    SnapFile.new disk0 = Except.ok ⟨disk0, ⟨[(5, ⟨0⟩)]⟩⟩ :=
  ⟨C4_new_validation.1 0 none none none (by decide),
   (C4_new_validation.2 ⟨SNAPFILE_MAGIC, none, none, none⟩ rfl).1 rfl,
   (C4_new_validation.2 disk0 rfl).2.2 ⟨[(5, ⟨0⟩)]⟩ rfl⟩

/-- C5 counterexample: `SnapFileMeta::new` performs no validation, so a
metadata built from a previous snapshot whose lsn (10) does not precede
the new lsn (5) still carries that lsn as predecessor — the claimed
strict precedence `predecessor.lsn < lsn` fails at this input. -/
theorem C5_counterexample :
    ¬ (∀ p : Predecessor,
        (SnapFileMeta.new (some ⟨T0, none, 10⟩) T0 5).predecessor = some p →
        p.lsn < (SnapFileMeta.new (some ⟨T0, none, 10⟩) T0 5).lsn) := by
  intro h
  exact absurd (h ⟨T0, 10⟩ rfl) (by decide)

/-- C5 (amended): if the constructed metadata has a predecessor then a
previous metadata was supplied, and the predecessor copies that previous
metadata's timeline and lsn verbatim; the strict precedence
`predecessor.lsn < lsn` therefore holds exactly when the caller passed a
previous snapshot with `previous.lsn < lsn` — `new` itself checks
nothing. -/
theorem C5_amended_predecessor_capture (previous : Option SnapFileMeta)
    (t : Timeline) (l : Nat) (p : Predecessor)
    (hp : (SnapFileMeta.new previous t l).predecessor = some p) :
    ∃ m, previous = some m ∧ p.timeline = m.timeline ∧ p.lsn = m.lsn ∧
      (p.lsn < (SnapFileMeta.new previous t l).lsn ↔ m.lsn < l) := by
  cases previous with
  | none => simp [SnapFileMeta.new] at hp
  | some m =>
    have hp' : Predecessor.mk m.timeline m.lsn = p := by
      simpa [SnapFileMeta.new] using hp
    subst hp'
    exact ⟨m, rfl, rfl, rfl, Iff.rfl⟩

/-- Witness for the amended C5 at a concrete previous metadata. -/
theorem C5_witness :
    ∃ m, (some meta0) = some m ∧
      (Predecessor.mk T0 1234).timeline = m.timeline ∧
      (Predecessor.mk T0 1234).lsn = m.lsn ∧
      ((Predecessor.mk T0 1234).lsn <
          (SnapFileMeta.new (some meta0) T0 2000).lsn ↔ m.lsn < 2000) :=
  C5_amended_predecessor_capture (some meta0) T0 2000 ⟨T0, 1234⟩ rfl

/-- C7: `to_filename` produces
`<hex(timeline)>_<hex(predecessor lsn or 0)>_<hex(lsn)>.zdb`, with the
middle component the hex of the predecessor's lsn when present and the
hex of 0 when absent. -/
theorem C7_filename_format (m : SnapFileMeta) :
    (m.predecessor = none →
      m.to_filename = String.mk (hexEncode m.timeline.val ++
        '_' :: natHex 0 ++ '_' :: natHex m.lsn ++ ['.', 'z', 'd', 'b'])) ∧
    (∀ p, m.predecessor = some p →
      m.to_filename = String.mk (hexEncode m.timeline.val ++
        '_' :: natHex p.lsn ++ '_' :: natHex m.lsn ++
        ['.', 'z', 'd', 'b'])) := by
  constructor
  · intro h
    simp [SnapFileMeta.to_filename, h]
  · intro p h
    simp [SnapFileMeta.to_filename, h]

/-- Witness for C7 at a metadata without and one with a predecessor. -/
theorem C7_witness :
    meta0.to_filename = String.mk (hexEncode meta0.timeline.val ++
      '_' :: natHex 0 ++ '_' :: natHex meta0.lsn ++ ['.', 'z', 'd', 'b']) ∧
    meta1.to_filename = String.mk (hexEncode meta1.timeline.val ++
      '_' :: natHex (Predecessor.mk T0 3).lsn ++ '_' :: natHex meta1.lsn ++
      ['.', 'z', 'd', 'b']) :=
  ⟨(C7_filename_format meta0).1 rfl,
   (C7_filename_format meta1).2 ⟨T0, 3⟩ rfl⟩

/-! ### Filename encoding lemmas -/

theorem hexDigit_lt_inj :
    ∀ a, a < 16 → ∀ b, b < 16 → hexDigit a = hexDigit b → a = b := by
  decide

theorem hexDigit_ne_underscore : ∀ a, a < 16 → hexDigit a ≠ '_' := by
  decide

theorem hexDigit_ne_dot : ∀ a, a < 16 → hexDigit a ≠ '.' := by
  decide

theorem hexEncode_ne_underscore {bs : List Nat} (hb : ∀ b ∈ bs, b < 256) :
    ∀ c ∈ hexEncode bs, c ≠ '_' := by
  intro c hc
  rw [hexEncode] at hc
  obtain ⟨l, hl, hcl⟩ := List.mem_flatten.mp hc
  obtain ⟨b, hbmem, rfl⟩ := List.mem_map.mp hl
  have hblt := hb b hbmem
  simp only [byteHex, List.mem_cons, List.not_mem_nil, or_false] at hcl
  rcases hcl with rfl | rfl
  · exact hexDigit_ne_underscore _ (Nat.div_lt_iff_lt_mul (by norm_num) |>.mpr (by omega))
  · exact hexDigit_ne_underscore _ (Nat.mod_lt _ (by norm_num))

theorem natHex_ne_underscore (n : Nat) : ∀ c ∈ natHex n, c ≠ '_' := by
  intro c hc
  rw [natHex] at hc
  by_cases h : n = 0
  · rw [if_pos h] at hc
    simp only [List.mem_cons, List.not_mem_nil, or_false] at hc
    subst hc
    decide
  · rw [if_neg h, List.mem_reverse] at hc
    obtain ⟨d, hd, rfl⟩ := List.mem_map.mp hc
    exact hexDigit_ne_underscore d (Nat.digits_lt_base (by norm_num) hd)

theorem natHex_ne_dot (n : Nat) : ∀ c ∈ natHex n, c ≠ '.' := by
  intro c hc
  rw [natHex] at hc
  by_cases h : n = 0
  · rw [if_pos h] at hc
    simp only [List.mem_cons, List.not_mem_nil, or_false] at hc
    subst hc
    decide
  · rw [if_neg h, List.mem_reverse] at hc
    obtain ⟨d, hd, rfl⟩ := List.mem_map.mp hc
    exact hexDigit_ne_dot d (Nat.digits_lt_base (by norm_num) hd)

theorem hexEncode_inj :
    ∀ (l1 l2 : List Nat), (∀ b ∈ l1, b < 256) → (∀ b ∈ l2, b < 256) →
      hexEncode l1 = hexEncode l2 → l1 = l2 := by
  intro l1
  induction l1 with
  | nil =>
    intro l2 _ _ h
    cases l2 with
    | nil => rfl
    | cons b t => simp [hexEncode, byteHex] at h
  | cons a t ih =>
    intro l2 h1 h2 h
    cases l2 with
    | nil => simp [hexEncode, byteHex] at h
    | cons b t2 =>
      simp only [hexEncode, List.map_cons, List.flatten_cons, byteHex,
        List.cons_append, List.nil_append, List.cons.injEq] at h
      obtain ⟨hc1, hc2, hrest⟩ := h
      have ha : a < 256 := h1 a (by simp)
      have hb : b < 256 := h2 b (by simp)
      have hd1 : a / 16 = b / 16 :=
        hexDigit_lt_inj _ (Nat.div_lt_iff_lt_mul (by norm_num) |>.mpr (by omega))
          _ (Nat.div_lt_iff_lt_mul (by norm_num) |>.mpr (by omega)) hc1
      have hd2 : a % 16 = b % 16 :=
        hexDigit_lt_inj _ (Nat.mod_lt _ (by norm_num))
          _ (Nat.mod_lt _ (by norm_num)) hc2
      have hab : a = b := by omega
      rw [hab, ih t2 (fun x hx => h1 x (by simp [hx]))
        (fun x hx => h2 x (by simp [hx])) hrest]

theorem digits_map_hexDigit_inj :
    ∀ (l1 l2 : List Nat), (∀ d ∈ l1, d < 16) → (∀ d ∈ l2, d < 16) →
      l1.map hexDigit = l2.map hexDigit → l1 = l2 := by
  intro l1
  induction l1 with
  | nil =>
    intro l2 _ _ h
    cases l2 with
    | nil => rfl
    | cons b t => simp at h
  | cons a t ih =>
    intro l2 h1 h2 h
    cases l2 with
    | nil => simp at h
    | cons b t2 =>
      simp only [List.map_cons, List.cons.injEq] at h
      have hab := hexDigit_lt_inj a (h1 a (by simp)) b (h2 b (by simp)) h.1
      rw [hab, ih t2 (fun d hd => h1 d (by simp [hd]))
        (fun d hd => h2 d (by simp [hd])) h.2]

theorem natHex_of_ne_zero {b : Nat} (hb : b ≠ 0)
    (h : ((Nat.digits 16 b).map hexDigit).reverse = ['0']) : False := by
  have hmap : (Nat.digits 16 b).map hexDigit = ['0'] := by
    have h' := congrArg List.reverse h
    rwa [List.reverse_reverse] at h'
  cases hd : Nat.digits 16 b with
  | nil => rw [hd] at hmap; simp at hmap
  | cons d t =>
    cases t with
    | cons d2 t2 => rw [hd] at hmap; simp at hmap
    | nil =>
      rw [hd] at hmap
      simp only [List.map_cons, List.map_nil, List.cons.injEq,
        and_true] at hmap
      have hdlt : d < 16 :=
        Nat.digits_lt_base (by norm_num) (hd ▸ List.mem_cons_self d [])
      have hd0 : d = 0 :=
        hexDigit_lt_inj d hdlt 0 (by norm_num) (by rw [hmap]; decide)
      have hb0 := Nat.ofDigits_digits 16 b
      rw [hd, hd0] at hb0
      exact hb (by simpa [Nat.ofDigits] using hb0.symm)

theorem natHex_inj {a b : Nat} (h : natHex a = natHex b) : a = b := by
  rw [natHex, natHex] at h
  by_cases ha : a = 0 <;> by_cases hb : b = 0
  · rw [ha, hb]
  · rw [if_pos ha, if_neg hb] at h
    exact absurd h.symm (fun hh => natHex_of_ne_zero hb hh)
  · rw [if_neg ha, if_pos hb] at h
    exact absurd h (fun hh => natHex_of_ne_zero ha hh)
  · rw [if_neg ha, if_neg hb] at h
    have hmap := List.reverse_injective h
    have hdig := digits_map_hexDigit_inj _ _
      (fun d hd => Nat.digits_lt_base (by norm_num) hd)
      (fun d hd => Nat.digits_lt_base (by norm_num) hd) hmap
    have hda := Nat.ofDigits_digits 16 a
    rw [hdig, Nat.ofDigits_digits] at hda
    exact hda.symm

theorem append_sep_inj (sep : Char) :
    ∀ (a a' b b' : List Char), (∀ c ∈ a, c ≠ sep) → (∀ c ∈ a', c ≠ sep) →
      a ++ sep :: b = a' ++ sep :: b' → a = a' ∧ b = b' := by
  intro a
  induction a with
  | nil =>
    intro a' b b' _ ha' h
    cases a' with
    | nil => simpa using h
    | cons c t =>
      simp only [List.nil_append, List.cons_append, List.cons.injEq] at h
      exact absurd h.1.symm (ha' c (by simp))
  | cons c t ih =>
    intro a' b b' ha ha' h
    cases a' with
    | nil =>
      simp only [List.nil_append, List.cons_append, List.cons.injEq] at h
      exact absurd h.1 (ha c (by simp))
    | cons c' t' =>
      simp only [List.cons_append, List.cons.injEq] at h
      obtain ⟨rfl, h2⟩ := h
      obtain ⟨ht, hb⟩ := ih t' b b' (fun x hx => ha x (by simp [hx]))
        (fun x hx => ha' x (by simp [hx])) h2
      exact ⟨by rw [ht], hb⟩

theorem to_filename_eq (m : SnapFileMeta) :
    m.to_filename = String.mk (hexEncode m.timeline.val ++
      '_' :: (natHex (predLsnOrZero m) ++
        '_' :: (natHex m.lsn ++ ['.', 'z', 'd', 'b']))) := by
  cases hm : m.predecessor <;>
    simp [SnapFileMeta.to_filename, predLsnOrZero, hm]

/-- C6 counterexample: two distinct metadata values — one with no
predecessor, one with a predecessor at lsn 0 — produce the same
filename, because the filename encodes only the predecessor's
lsn-or-zero and drops the predecessor's timeline entirely. -/
theorem C6_counterexample :
    (⟨T0, none, 5⟩ : SnapFileMeta) ≠ ⟨T0, some ⟨T0, 0⟩, 5⟩ ∧
    SnapFileMeta.to_filename ⟨T0, none, 5⟩ =
      SnapFileMeta.to_filename ⟨T0, some ⟨T0, 0⟩, 5⟩ := by
  constructor
  · decide
  · rfl

/-- C6 (amended): `to_filename` is injective exactly up to the triple it
encodes — the timeline, the lsn, and the predecessor's lsn-or-zero. Two
metadata values get the same filename iff they agree on those three;
in particular values differing only in the predecessor's timeline, or
only in predecessor-absent versus predecessor-at-lsn-0, collide. -/
theorem C6_amended_filename_inj (m1 m2 : SnapFileMeta) :
    m1.to_filename = m2.to_filename ↔
      (m1.timeline = m2.timeline ∧ predLsnOrZero m1 = predLsnOrZero m2 ∧
        m1.lsn = m2.lsn) := by
  constructor
  · intro h
    rw [to_filename_eq, to_filename_eq] at h
    have hl := congrArg String.data h
    simp only [String.data] at hl
    obtain ⟨ht, hrest⟩ := append_sep_inj '_' _ _ _ _
      (hexEncode_ne_underscore m1.timeline.2.2)
      (hexEncode_ne_underscore m2.timeline.2.2) hl
    obtain ⟨hp, hrest2⟩ := append_sep_inj '_' _ _ _ _
      (natHex_ne_underscore _) (natHex_ne_underscore _) hrest
    obtain ⟨hlsn, _⟩ := append_sep_inj '.' _ _ _ _
      (natHex_ne_dot _) (natHex_ne_dot _) hrest2
    refine ⟨?_, natHex_inj hp, natHex_inj hlsn⟩
    exact Subtype.ext (hexEncode_inj _ _ m1.timeline.2.2 m2.timeline.2.2 ht)
  · rintro ⟨h1, h2, h3⟩
    rw [to_filename_eq, to_filename_eq, h1, h2, h3]
